import Mathlib

/-!
Shallow embedding of the "fetch → filter → merge → persist" pipeline of the
cron route (`src/app/api/cron/route.ts`) and the regenerate-light route
(`src/app/api/regenerate-light/route.ts`).

Numbers (`price`, `h24`) are modelled as `Int`; the claims under study only
depend on comparisons between them.  A thrown JavaScript exception is
modelled as `Except.error ()`.
-/

namespace CryptoPipeline

/-- One element of the raw asset sequence (interface `CryptoData`).
`name` is `Option` because the raw payload may lack the field (the TypeScript
interface promises it, but `filterData` takes `rawData: any`).
`h24raw` models `percentChange?.h24`: `none` when `percentChange` is absent
or has no `h24` field. -/
structure CryptoData where
  symbol : String
  name : Option String
  price : Int
  h24raw : Option Int
deriving DecidableEq

/-- Interface `FilteredCrypto`: one entry of the derived list (light.json). -/
structure FilteredCrypto where
  symbol : String
  name : String
  price : Int
  h24 : Int
deriving DecidableEq

/-- `pat.isPrefixOf` scanned along every suffix: JavaScript
`String.prototype.includes` (case-sensitive substring test). -/
def containsSubList (pat : List Char) : List Char → Bool
  | [] => pat.isEmpty
  | c :: cs => pat.isPrefixOf (c :: cs) || containsSubList pat cs

/-- `s.includes(pat)` on strings. -/
def strIncludes (s pat : String) : Bool :=
  containsSubList pat.data s.data

/-- The exclusion predicate of the `.filter` step:
`name.includes("Wrapped") || name.includes("Staked") || name.includes("Restaked")`
(the code keeps an asset when all three are false). -/
def excludedName (n : String) : Bool :=
  strIncludes n "Wrapped" || strIncludes n "Staked" || strIncludes n "Restaked"

/-- The fused `.filter(...).map(...)` stage of `filterData`.
When an asset's `name` is missing, `crypto.name.includes("Wrapped")` throws a
TypeError at that element; the error propagates out of `filterData`
(`Except.error ()`).  A surviving asset is projected to a `FilteredCrypto`
with `h24 = percentChange?.h24 || 0`. -/
def filterMapCryptos : List CryptoData → Except Unit (List FilteredCrypto)
  | [] => .ok []
  | a :: rest =>
    match a.name with
    | none => .error ()
    | some n =>
      if excludedName n then filterMapCryptos rest
      else
        match filterMapCryptos rest with
        | .error e => .error e
        | .ok tail =>
          .ok ({ symbol := a.symbol, name := n, price := a.price,
                 h24 := a.h24raw.getD 0 } :: tail)

/-- `const prioritySymbols = ["BTC", "ETH", "SOL", "BNB"]`. -/
def prioritySymbols : List String := ["BTC", "ETH", "SOL", "BNB"]

/-- `prioritySymbols.includes(crypto.symbol)`. -/
def isPriority (c : FilteredCrypto) : Bool :=
  prioritySymbols.contains c.symbol

/-- Sort relation realised by the comparator `(a, b) => b.h24 - a.h24`:
`a` may come before `b` exactly when `b.h24 ≤ a.h24` (descending `h24`). -/
def h24ge (a b : FilteredCrypto) : Prop := b.h24 ≤ a.h24

instance : DecidableRel h24ge :=
  fun a b => inferInstanceAs (Decidable (b.h24 ≤ a.h24))

instance : IsTotal FilteredCrypto h24ge :=
  ⟨fun a b => le_total b.h24 a.h24⟩

instance : IsTrans FilteredCrypto h24ge :=
  ⟨fun _ _ _ hab hbc => le_trans hbc hab⟩

/-- `const sortedPriority = prioritySymbols.map((sym) =>
priorityCryptos.find((c) => c.symbol === sym)).filter((c) => c !== undefined)`. -/
def prioritySegment (filtered : List FilteredCrypto) : List FilteredCrypto :=
  ((prioritySymbols.map
      (fun sym => (filtered.filter isPriority).find? (fun c => c.symbol == sym))).filterMap id)

/-- `const sortedOthers = otherCryptos.sort((a, b) => b.h24 - a.h24)`.
`Array.prototype.sort` is stable (required since ES2019; Node/V8 complies),
so it is modelled as the stable insertion sort with relation `h24ge`. -/
def othersSorted (filtered : List FilteredCrypto) : List FilteredCrypto :=
  List.insertionSort h24ge (filtered.filter (fun c => !(isPriority c)))

/-- `[...sortedPriority, ...sortedOthers]`: the concatenated list before
the final `.slice(0, capacity)` truncation. -/
def combineLists (filtered : List FilteredCrypto) : List FilteredCrypto :=
  prioritySegment filtered ++ othersSorted filtered

/-- A non-null JSON value as seen by `filterData` after property access has
succeeded: either a sequence of assets, or any other non-null value
(object, number, string, boolean — property access on these yields
`undefined` without throwing). -/
inductive RawValue where
  | seq (cryptos : List CryptoData)
  | obj
deriving DecidableEq

/-- The raw payload handed to `filterData` (any `response.json()` result).
`jsonNull` is the JSON `null` payload: reading `rawData.data` on it throws a
TypeError.  `payload data self` is every other payload: `data` is its `data`
field (`none` when absent or falsy, e.g. null), `self` the payload itself
viewed as a `RawValue`. -/
inductive RawData where
  | jsonNull
  | payload (data : Option RawValue) (self : RawValue)
deriving DecidableEq

/-- `const cryptos = rawData.data || rawData`: on the JSON `null` payload the
property read itself throws (modelled as an error); otherwise the `data`
field when present and truthy, else the payload itself. -/
def extract : RawData → Except Unit RawValue
  | .jsonNull => .error ()
  | .payload data self => .ok (data.getD self)

/-- `filterData`, with the `.slice(0, ...)` bound as a parameter `cap`.
The cron route instantiates `cap = 16`, the regenerate-light route
`cap = 50`; the bodies are otherwise identical.  A thrown TypeError — from
`rawData.data` on a null payload, or from `crypto.name.includes` on a
missing name — propagates out, hence the `Except`. -/
def filterDataCap (cap : Nat) (rawData : RawData) : Except Unit (List FilteredCrypto) :=
  match extract rawData with
  | .error e => .error e
  | .ok .obj => .ok []
  | .ok (.seq cryptos) =>
    match filterMapCryptos cryptos with
    | .error e => .error e
    | .ok filtered => .ok ((combineLists filtered).take cap)

/-- `filterData` of `src/app/api/cron/route.ts` (`.slice(0, 16)`). -/
def filterData : RawData → Except Unit (List FilteredCrypto) :=
  filterDataCap 16

/-- `filterData` of `src/app/api/regenerate-light/route.ts` (`.slice(0, 50)`). -/
def regenFilterData : RawData → Except Unit (List FilteredCrypto) :=
  filterDataCap 50

/-- The survivors of the extraction plus name-exclusion-and-projection steps
(the list the partition/sort/truncate stages operate on). -/
def survivorsOf (rawData : RawData) : Except Unit (List FilteredCrypto) :=
  match extract rawData with
  | .error e => .error e
  | .ok .obj => .ok []
  | .ok (.seq cryptos) => filterMapCryptos cryptos

/-- Result of parsing the previously persisted light.json: a list of entries,
or some other JSON shape. -/
inductive LightDoc where
  | list (entries : List FilteredCrypto)
  | nonList
deriving DecidableEq

/-- Step 3 of the cron `GET` handler (the try/catch around
`readFromGitHub("light.json")` and `finalLightData.push(fgiEntry)`).
A failed read (`.error`) is swallowed by the catch; a parsed document that is
not an array makes `existing.find` throw a TypeError, caught by the same
catch; otherwise the first entry with symbol `"FGI"` (if any) is pushed onto
the fresh list unconditionally. -/
def preserveFGI (fresh : List FilteredCrypto) (readResult : Except Unit LightDoc) :
    List FilteredCrypto :=
  match readResult with
  | .error _ => fresh
  | .ok .nonList => fresh
  | .ok (.list existing) =>
    match existing.find? (fun c => c.symbol == "FGI") with
    | none => fresh
    | some fgiEntry => fresh ++ [fgiEntry]

/-- The environment of one cron run: configuration plus the outcome of each
external effect, in the order the handler performs them. -/
structure RunEnv where
  apiUrlConfigured : Bool
  fetchResult : Except Unit RawData
  commitRawResult : Except Unit Unit
  readLightResult : Except Unit LightDoc
  commitLightResult : Except Unit Unit

/-- Outcome of the `GET` handler: the success JSON (carrying the final light
data the run persisted and reported sizes for), or an error response. -/
inductive Outcome where
  | success (finalLightData : List FilteredCrypto)
  | failure
deriving DecidableEq

/-- The cron `GET` handler: missing `EXTERNAL_API_URL`, a failed fetch, a
failed raw commit, a `filterData` throw, or a failed light commit all
produce the error response; the light.json read in step 3 is inside its own
try/catch and never fails the run. -/
def runGET (env : RunEnv) : Outcome :=
  if !env.apiUrlConfigured then .failure
  else
    match env.fetchResult with
    | .error _ => .failure
    | .ok rawData =>
      match env.commitRawResult with
      | .error _ => .failure
      | .ok _ =>
        match filterData rawData with
        | .error _ => .failure
        | .ok filteredData =>
          let finalLightData := preserveFGI filteredData env.readLightResult
          match env.commitLightResult with
          | .error _ => .failure
          | .ok _ => .success finalLightData

/-! ### Helper lemmas -/

lemma filterDataCap_eq (cap : Nat) (raw : RawData) (f : List FilteredCrypto)
    (hs : survivorsOf raw = .ok f) :
    filterDataCap cap raw = .ok ((combineLists f).take cap) := by
  unfold survivorsOf at hs
  unfold filterDataCap
  split at hs
  · exact Except.noConfusion hs
  · injection hs with hs
    subst hs
    simp [combineLists, prioritySegment, othersSorted, prioritySymbols]
  · rw [hs]

lemma filterDataCap_length_le (cap : Nat) (raw : RawData) (out : List FilteredCrypto)
    (h : filterDataCap cap raw = .ok out) : out.length ≤ cap := by
  unfold filterDataCap at h
  split at h
  · exact Except.noConfusion h
  · injection h with h
    subst h
    simp
  · split at h
    · cases h
    · injection h with h
      subst h
      exact List.length_take_le cap _

lemma preserveFGI_length_le (fresh : List FilteredCrypto) (res : Except Unit LightDoc) :
    (preserveFGI fresh res).length ≤ fresh.length + 1 := by
  unfold preserveFGI
  split
  · simp
  · simp
  · split
    · simp
    · simp

lemma prioritySegment_length_le (f : List FilteredCrypto) :
    (prioritySegment f).length ≤ 4 := by
  unfold prioritySegment
  refine le_trans (List.length_filterMap_le _ _) ?_
  simp [prioritySymbols]

lemma mem_f_of_mem_prioritySegment {f : List FilteredCrypto} {c : FilteredCrypto}
    (h : c ∈ prioritySegment f) : c ∈ f ∧ isPriority c = true := by
  unfold prioritySegment at h
  rw [List.mem_filterMap] at h
  obtain ⟨o, ho, hoc⟩ := h
  rw [List.mem_map] at ho
  obtain ⟨sym, _, hfind⟩ := ho
  subst hfind
  simp only [id_eq] at hoc
  have hmem := List.mem_of_find?_eq_some hoc
  rw [List.mem_filter] at hmem
  exact ⟨hmem.1, hmem.2⟩

lemma contains_of_mem_prioritySymbols {sym : String} (h : sym ∈ prioritySymbols) :
    prioritySymbols.contains sym = true :=
  List.elem_iff.mpr h

/-! ### C3: output length bounded by the capacity constant -/

/-- C3: for every raw snapshot input, the list returned by `filterData` has
length at most the capacity — 16 for the cron route, 50 for the
regenerate-light route — and both routes instantiate the same
capacity-parameterised filter, whose output length is at most `cap` for
every capacity choice. -/
theorem filterData_length_le_capacity :
    (∀ raw out, filterData raw = .ok out → out.length ≤ 16) ∧
    (∀ raw out, regenFilterData raw = .ok out → out.length ≤ 50) ∧
    (∀ cap raw out, filterDataCap cap raw = .ok out → out.length ≤ cap) :=
  ⟨fun raw out h => filterDataCap_length_le 16 raw out h,
   fun raw out h => filterDataCap_length_le 50 raw out h,
   fun cap raw out h => filterDataCap_length_le cap raw out h⟩

/-- Witness for C3 at a concrete one-asset snapshot. -/
theorem filterData_length_le_capacity_witness :
    ∃ out, filterData (RawData.payload none (RawValue.seq [⟨"BTC", some "Bitcoin", 50000, some 2⟩])) = .ok out
      ∧ out.length ≤ 16 :=
  ⟨[⟨"BTC", "Bitcoin", 50000, 2⟩], rfl,
    filterData_length_le_capacity.1 (RawData.payload none (RawValue.seq [⟨"BTC", some "Bitcoin", 50000, some 2⟩]))
      [⟨"BTC", "Bitcoin", 50000, 2⟩] rfl⟩

/-! ### C4: merge-preserve appends the persisted FGI entry -/

/-- C4: when the previously persisted list contains an FGI entry and the
fresh list does not, the merge step returns exactly `fresh ++ [fgi]`, of
length `fresh.length + 1`, with the preserved side entry last. -/
theorem preserveFGI_appends_side_entry :
    ∀ (fresh existing : List FilteredCrypto) (fgi : FilteredCrypto),
      (∀ c ∈ fresh, (c.symbol == "FGI") = false) →
      existing.find? (fun c => c.symbol == "FGI") = some fgi →
      preserveFGI fresh (.ok (.list existing)) = fresh ++ [fgi] ∧
      (preserveFGI fresh (.ok (.list existing))).length = fresh.length + 1 ∧
      (preserveFGI fresh (.ok (.list existing))).getLast? = some fgi := by
  intro fresh existing fgi _ hfind
  have hp : preserveFGI fresh (.ok (.list existing)) = fresh ++ [fgi] := by
    simp only [preserveFGI, hfind]
  refine ⟨hp, ?_, ?_⟩
  · rw [hp]; simp
  · rw [hp]; exact List.getLast?_concat fresh

/-- Witness for C4: the spec's own scenario `fresh = [BTC]`,
`previous = [FGI]`. -/
theorem preserveFGI_appends_side_entry_witness :
    preserveFGI [⟨"BTC", "Bitcoin", 50000, 2⟩]
        (.ok (.list [⟨"FGI", "Fear and Greed Index", 55, 0⟩]))
      = [⟨"BTC", "Bitcoin", 50000, 2⟩, ⟨"FGI", "Fear and Greed Index", 55, 0⟩] :=
  (preserveFGI_appends_side_entry [⟨"BTC", "Bitcoin", 50000, 2⟩]
    [⟨"FGI", "Fear and Greed Index", 55, 0⟩] ⟨"FGI", "Fear and Greed Index", 55, 0⟩
    (by decide) rfl).1

/-! ### C6: the previous-derived read never fails the run -/

/-- C6: when the read of the previously persisted light.json fails in any
way — modelled as a thrown read error (store miss, parse failure, transient
fetch error) or a parsed document that is not a list (whose `.find` call
throws inside the same try/catch) — the run proceeds with the fresh filtered
list unchanged and still reports success. -/
theorem runGET_previous_read_never_fails_run :
    ∀ (env : RunEnv) (raw : RawData) (fresh : List FilteredCrypto),
      env.apiUrlConfigured = true →
      env.fetchResult = .ok raw →
      env.commitRawResult = .ok () →
      env.commitLightResult = .ok () →
      filterData raw = .ok fresh →
      (env.readLightResult = .error () ∨ env.readLightResult = .ok .nonList) →
      runGET env = .success fresh := by
  intro env raw fresh h1 h2 h3 h4 h5 h6
  obtain ⟨a, b, c, d, e⟩ := env
  simp only at h1 h2 h3 h4 h6
  subst h1 h2 h3 h4
  rcases h6 with h6 | h6 <;> subst h6 <;> simp [runGET, h5, preserveFGI]

/-- Witness for C6 at a concrete environment whose light.json read throws. -/
theorem runGET_previous_read_never_fails_run_witness :
    runGET ⟨true, .ok (RawData.payload none (RawValue.seq [⟨"BTC", some "Bitcoin", 50000, some 2⟩])),
        .ok (), .error (), .ok ()⟩
      = .success [⟨"BTC", "Bitcoin", 50000, 2⟩] :=
  runGET_previous_read_never_fails_run
    ⟨true, .ok (RawData.payload none (RawValue.seq [⟨"BTC", some "Bitcoin", 50000, some 2⟩])),
      .ok (), .error (), .ok ()⟩
    (RawData.payload none (RawValue.seq [⟨"BTC", some "Bitcoin", 50000, some 2⟩]))
    [⟨"BTC", "Bitcoin", 50000, 2⟩] rfl rfl rfl rfl rfl (Or.inl rfl)

/-! ### C7: malformed payloads — graceful except the null payload -/

/-- C7 counterexample: the JSON `null` payload is not list-shaped, yet
`filterData` does not return the empty list — reading `rawData.data` throws a
TypeError — and a run that fetched it does not report success: it ends in the
error response even though both commits would have succeeded. -/
theorem runGET_null_payload_counterexample :
    filterData RawData.jsonNull = .error () ∧
    runGET ⟨true, .ok RawData.jsonNull, .ok (), .error (), .ok ()⟩ = .failure :=
  ⟨rfl, rfl⟩

/-- C7 amended: for every fetched payload that is not list-shaped AND not the
JSON `null` payload (neither the payload nor its `data` field being a
sequence, e.g. the payload `{}`), `filterData` returns `.ok []` rather than
throwing, and a run whose commits succeed still reports success carrying the
(possibly empty) derived document; on the `null` payload alone, `rawData.data`
itself throws and `filterData` propagates the error. -/
theorem runGET_malformed_payload_degrades :
    (∀ (env : RunEnv) (raw : RawData),
      extract raw = .ok RawValue.obj →
      env.apiUrlConfigured = true →
      env.fetchResult = .ok raw →
      env.commitRawResult = .ok () →
      env.commitLightResult = .ok () →
      filterData raw = .ok [] ∧
      runGET env = .success (preserveFGI [] env.readLightResult)) ∧
    filterData RawData.jsonNull = .error () := by
  refine ⟨?_, rfl⟩
  intro env raw hext h1 h2 h3 h4
  have hfd : filterData raw = .ok [] := by
    unfold filterData filterDataCap
    rw [hext]
  refine ⟨hfd, ?_⟩
  obtain ⟨a, b, c, d, e⟩ := env
  simp only at h1 h2 h3 h4 ⊢
  subst h1 h2 h3 h4
  simp [runGET, hfd]

/-- Witness for the amended C7: the payload `{}` (no `data` field, not a
sequence, not null). -/
theorem runGET_malformed_payload_degrades_witness :
    filterData (RawData.payload none RawValue.obj) = .ok [] ∧
    runGET ⟨true, .ok (RawData.payload none RawValue.obj), .ok (), .error (), .ok ()⟩
      = .success (preserveFGI [] (.error ())) :=
  runGET_malformed_payload_degrades.1
    ⟨true, .ok (RawData.payload none RawValue.obj), .ok (), .error (), .ok ()⟩
    (RawData.payload none RawValue.obj) rfl rfl rfl rfl rfl

/-! ### C10: the persisted derived document has at most capacity + 1 entries -/

/-- C10: the merge step adds at most one entry to the fresh list, so the
final light data a successful cron run persists has at most 17 entries
(capacity 16 plus the preserved side entry); whenever a previously
persisted FGI entry exists, the merged length is exactly `fresh.length + 1`. -/
theorem runGET_persisted_length_le :
    (∀ (fresh : List FilteredCrypto) (res : Except Unit LightDoc),
      (preserveFGI fresh res).length ≤ fresh.length + 1) ∧
    (∀ env final, runGET env = .success final → final.length ≤ 17) ∧
    (∀ (fresh existing : List FilteredCrypto) (fgi : FilteredCrypto),
      existing.find? (fun c => c.symbol == "FGI") = some fgi →
      (preserveFGI fresh (.ok (.list existing))).length = fresh.length + 1) := by
  refine ⟨preserveFGI_length_le, ?_, ?_⟩
  · intro env final h
    obtain ⟨a, b, c, d, e⟩ := env
    cases a with
    | false => simp [runGET] at h
    | true =>
      cases b with
      | error u => simp [runGET] at h
      | ok rawData =>
        cases c with
        | error u => simp [runGET] at h
        | ok u =>
          cases hfd : filterData rawData with
          | error u2 => simp [runGET, hfd] at h
          | ok filteredData =>
            cases e with
            | error u2 => simp [runGET, hfd] at h
            | ok u2 =>
              simp only [runGET, Bool.not_true, Bool.false_eq_true, if_false, hfd] at h
              injection h with h
              subst h
              have h1 := preserveFGI_length_le filteredData d
              have h2 := filterDataCap_length_le 16 rawData filteredData hfd
              omega
  · intro fresh existing fgi hfind
    simp [preserveFGI, hfind]

/-- Witness for C10 at a concrete run and a concrete preserved entry. -/
theorem runGET_persisted_length_le_witness :
    ([] : List FilteredCrypto).length ≤ 17 ∧
    (preserveFGI [] (.ok (.list [⟨"FGI", "Fear and Greed Index", 55, 0⟩]))).length = 0 + 1 :=
  ⟨runGET_persisted_length_le.2.1 ⟨true, .ok (RawData.payload none RawValue.obj), .ok (), .error (), .ok ()⟩
      [] rfl,
   runGET_persisted_length_le.2.2 [] [⟨"FGI", "Fear and Greed Index", 55, 0⟩]
      ⟨"FGI", "Fear and Greed Index", 55, 0⟩ rfl⟩

/-! ### Helper lemmas for the priority-ordering claim -/

lemma map_symbol_find (pc : List FilteredCrypto) (syms : List String) :
    ((syms.map (fun sym => pc.find? (fun c => c.symbol == sym))).filterMap id).map
        (fun c => c.symbol)
      = syms.filter (fun sym => pc.any (fun c => c.symbol == sym)) := by
  induction syms with
  | nil => rfl
  | cons s rest ih =>
    simp only [List.map_cons, List.filterMap_cons]
    cases hf : pc.find? (fun c => c.symbol == s) with
    | none =>
      have hany : pc.any (fun c => c.symbol == s) = false := by
        rw [List.any_eq_false]
        exact List.find?_eq_none.mp hf
      rw [List.filter_cons, hany]
      simpa using ih
    | some c =>
      have hcs : (c.symbol == s) = true := by simpa using List.find?_some hf
      have hany : pc.any (fun c => c.symbol == s) = true :=
        List.any_eq_true.mpr ⟨c, List.mem_of_find?_eq_some hf, hcs⟩
      rw [List.filter_cons, hany]
      simp only [id_eq, if_true, List.map_cons, ih]
      rw [eq_of_beq hcs]

lemma any_filter_priority (sym : String) (hsym : sym ∈ prioritySymbols)
    (f : List FilteredCrypto) :
    (f.filter isPriority).any (fun c => c.symbol == sym)
      = f.any (fun c => c.symbol == sym) := by
  induction f with
  | nil => rfl
  | cons c rest ih =>
    cases hp : isPriority c with
    | true =>
      rw [List.filter_cons, hp]
      simp only [if_true, List.any_cons, ih]
    | false =>
      have hcs : (c.symbol == sym) = false := by
        cases hcs : c.symbol == sym with
        | false => rfl
        | true =>
          have : isPriority c = true := by
            unfold isPriority
            rw [eq_of_beq hcs]
            exact contains_of_mem_prioritySymbols hsym
          rw [hp] at this
          cases this
      rw [List.filter_cons, hp]
      simp [hcs, ih]

/-! ### C1: priority entries come first, in the fixed order -/

/-- C1: for every raw snapshot whose extraction and name-exclusion steps
produce the survivor list `f`, the cron filter output is the fixed-order
priority segment followed by a remainder `O`; the priority segment's symbols
are exactly the priority symbols present among the survivors, in the fixed
order `BTC, ETH, SOL, BNB` (an absent priority symbol contributes nothing);
and every entry of `O` is non-priority, so priority entries all come before
any non-priority entry. -/
theorem filterData_priority_first :
    ∀ (raw : RawData) (f : List FilteredCrypto), survivorsOf raw = .ok f →
      ∃ O, filterData raw = .ok (prioritySegment f ++ O) ∧
        (prioritySegment f).map (fun c => c.symbol)
          = prioritySymbols.filter (fun sym => f.any (fun c => c.symbol == sym)) ∧
        (∀ c ∈ O, isPriority c = false) ∧
        (∀ sym ∈ prioritySymbols, f.any (fun c => c.symbol == sym) = false →
          ∀ c ∈ prioritySegment f ++ O, (c.symbol == sym) = false) := by
  intro raw f hs
  have hO : ∀ c ∈ (othersSorted f).take (16 - (prioritySegment f).length),
      isPriority c = false := by
    intro c hc
    have hc2 : c ∈ othersSorted f := List.mem_of_mem_take hc
    unfold othersSorted at hc2
    rw [List.mem_insertionSort] at hc2
    have hfl := (List.mem_filter.mp hc2).2
    simpa using hfl
  refine ⟨(othersSorted f).take (16 - (prioritySegment f).length), ?_, ?_, hO, ?_⟩
  · have heq := filterDataCap_eq 16 raw f hs
    unfold filterData
    rw [heq]
    unfold combineLists
    rw [List.take_append_eq_append_take,
        List.take_of_length_le (le_trans (prioritySegment_length_le f) (by norm_num))]
  · unfold prioritySegment
    rw [map_symbol_find]
    exact List.filter_congr (fun sym hsym => any_filter_priority sym hsym f)
  · intro sym hsym hany c hc
    cases hcs : c.symbol == sym with
    | false => rfl
    | true =>
      exfalso
      have hceq : c.symbol = sym := eq_of_beq hcs
      rcases List.mem_append.mp hc with hmem | hmem
      · have hcf := (mem_f_of_mem_prioritySegment hmem).1
        have : f.any (fun c => c.symbol == sym) = true :=
          List.any_eq_true.mpr ⟨c, hcf, hcs⟩
        rw [hany] at this
        cases this
      · have hnp := hO c hmem
        have : isPriority c = true := by
          unfold isPriority
          rw [hceq]
          exact contains_of_mem_prioritySymbols hsym
        rw [hnp] at this
        cases this

/-- Witness for C1: a snapshot listing a non-priority asset before BTC. -/
theorem filterData_priority_first_witness :
    ∃ O, filterData (RawData.payload none (RawValue.seq
        [⟨"XYZ", some "Xyz", 1, some 10⟩, ⟨"BTC", some "Bitcoin", 50000, some 2⟩]))
        = .ok (prioritySegment [⟨"XYZ", "Xyz", 1, 10⟩, ⟨"BTC", "Bitcoin", 50000, 2⟩] ++ O) ∧
      (prioritySegment [⟨"XYZ", "Xyz", 1, 10⟩, ⟨"BTC", "Bitcoin", 50000, 2⟩]).map
          (fun c => c.symbol)
        = prioritySymbols.filter
            (fun sym => ([⟨"XYZ", "Xyz", 1, 10⟩,
              (⟨"BTC", "Bitcoin", 50000, 2⟩ : FilteredCrypto)]).any
                (fun c => c.symbol == sym)) ∧
      (∀ c ∈ O, isPriority c = false) ∧
      (∀ sym ∈ prioritySymbols,
        ([⟨"XYZ", "Xyz", 1, 10⟩, (⟨"BTC", "Bitcoin", 50000, 2⟩ : FilteredCrypto)]).any
            (fun c => c.symbol == sym) = false →
        ∀ c ∈ prioritySegment [⟨"XYZ", "Xyz", 1, 10⟩, ⟨"BTC", "Bitcoin", 50000, 2⟩] ++ O,
          (c.symbol == sym) = false) :=
  filterData_priority_first
    (RawData.payload none (RawValue.seq
      [⟨"XYZ", some "Xyz", 1, some 10⟩, ⟨"BTC", some "Bitcoin", 50000, some 2⟩]))
    [⟨"XYZ", "Xyz", 1, 10⟩, ⟨"BTC", "Bitcoin", 50000, 2⟩] rfl

/-! ### Helper lemmas for sortedness and stability -/

lemma filter_h24_orderedInsert (v : Int) (x : FilteredCrypto) (m : List FilteredCrypto) :
    (List.orderedInsert h24ge x m).filter (fun c => c.h24 == v)
      = if (x.h24 == v) = true then x :: m.filter (fun c => c.h24 == v)
        else m.filter (fun c => c.h24 == v) := by
  induction m with
  | nil =>
    simp only [List.orderedInsert_nil]
    cases hx : x.h24 == v <;> simp [List.filter_cons, hx]
  | cons y ys ih =>
    simp only [List.orderedInsert]
    by_cases hr : h24ge x y
    · rw [if_pos hr, List.filter_cons]
    · rw [if_neg hr, List.filter_cons, ih, List.filter_cons]
      have hlt : x.h24 < y.h24 := lt_of_not_le hr
      by_cases px : (x.h24 == v) = true <;> by_cases py : (y.h24 == v) = true
      · exfalso
        have hx := eq_of_beq px
        have hy := eq_of_beq py
        omega
      · simp [px, py]
      · simp [px, py]
      · simp [px, py]

lemma filter_h24_insertionSort (v : Int) (l : List FilteredCrypto) :
    (List.insertionSort h24ge l).filter (fun c => c.h24 == v)
      = l.filter (fun c => c.h24 == v) := by
  induction l with
  | nil => rfl
  | cons x xs ih =>
    simp only [List.insertionSort]
    rw [filter_h24_orderedInsert, ih, List.filter_cons]

/-! ### C2: the non-priority segment is sorted by h24 descending, stably -/

/-- C2: for every raw snapshot with survivor list `f`, the cron filter output
is the priority segment followed by a truncated prefix of the sorted
non-priority segment; that segment (truncated or not) is pairwise descending
in `h24` (so every adjacent pair `a, b` satisfies `a.h24 ≥ b.h24`); and the
sort is stable: for every value `v`, the entries with `h24 = v` appear in
exactly their relative input order. -/
theorem filterData_others_sorted_stable :
    ∀ (raw : RawData) (f : List FilteredCrypto), survivorsOf raw = .ok f →
      ∃ k, filterData raw = .ok (prioritySegment f ++ (othersSorted f).take k) ∧
        ((othersSorted f).take k).Pairwise h24ge ∧
        (othersSorted f).Pairwise h24ge ∧
        (∀ v : Int, (othersSorted f).filter (fun c => c.h24 == v)
          = (f.filter (fun c => !(isPriority c))).filter (fun c => c.h24 == v)) := by
  intro raw f hs
  refine ⟨16 - (prioritySegment f).length, ?_, ?_, ?_, ?_⟩
  · have heq := filterDataCap_eq 16 raw f hs
    unfold filterData
    rw [heq]
    unfold combineLists
    rw [List.take_append_eq_append_take,
        List.take_of_length_le (le_trans (prioritySegment_length_le f) (by norm_num))]
  · exact List.Pairwise.sublist (List.take_sublist _ _) (List.sorted_insertionSort h24ge _)
  · exact List.sorted_insertionSort h24ge _
  · intro v
    exact filter_h24_insertionSort v _

/-- Witness for C2: three non-priority assets, two of them tied on `h24`;
the tied pair keeps its input order behind the larger entry. -/
theorem filterData_others_sorted_stable_witness :
    ∃ k, filterData (RawData.payload none (RawValue.seq
          [⟨"AAA", some "Aa", 1, some 3⟩, ⟨"CCC", some "Cc", 3, some 5⟩,
           ⟨"BBB", some "Bb", 2, some 3⟩]))
        = .ok (prioritySegment
              [⟨"AAA", "Aa", 1, 3⟩, ⟨"CCC", "Cc", 3, 5⟩, ⟨"BBB", "Bb", 2, 3⟩] ++
            (othersSorted
              [⟨"AAA", "Aa", 1, 3⟩, ⟨"CCC", "Cc", 3, 5⟩, ⟨"BBB", "Bb", 2, 3⟩]).take k) ∧
      ((othersSorted
          [⟨"AAA", "Aa", 1, 3⟩, ⟨"CCC", "Cc", 3, 5⟩, ⟨"BBB", "Bb", 2, 3⟩]).take k).Pairwise
        h24ge ∧
      (othersSorted
          [⟨"AAA", "Aa", 1, 3⟩, ⟨"CCC", "Cc", 3, 5⟩, ⟨"BBB", "Bb", 2, 3⟩]).Pairwise h24ge ∧
      (∀ v : Int,
        (othersSorted
            [⟨"AAA", "Aa", 1, 3⟩, ⟨"CCC", "Cc", 3, 5⟩, ⟨"BBB", "Bb", 2, 3⟩]).filter
            (fun c => c.h24 == v)
          = (([⟨"AAA", "Aa", 1, 3⟩, ⟨"CCC", "Cc", 3, 5⟩,
               (⟨"BBB", "Bb", 2, 3⟩ : FilteredCrypto)]).filter
              (fun c => !(isPriority c))).filter (fun c => c.h24 == v)) :=
  filterData_others_sorted_stable
    (RawData.payload none (RawValue.seq
      [⟨"AAA", some "Aa", 1, some 3⟩, ⟨"CCC", some "Cc", 3, some 5⟩,
       ⟨"BBB", some "Bb", 2, some 3⟩]))
    [⟨"AAA", "Aa", 1, 3⟩, ⟨"CCC", "Cc", 3, 5⟩, ⟨"BBB", "Bb", 2, 3⟩] rfl

/-! ### C5: merge-preserve does NOT deduplicate a stray FGI entry -/

/-- C5 counterexample: when the fresh list already holds an FGI entry and the
previously persisted list holds another, the merge output contains BOTH (the
stray fresh one first, the freshly-read one appended last) — two FGI
entries, not exactly one. -/
theorem preserveFGI_no_dedup_counterexample :
    preserveFGI [⟨"FGI", "Fear and Greed Index", 50, 0⟩]
        (.ok (.list [⟨"FGI", "Fear and Greed Index", 60, 0⟩]))
      = [⟨"FGI", "Fear and Greed Index", 50, 0⟩, ⟨"FGI", "Fear and Greed Index", 60, 0⟩] ∧
    ((preserveFGI [⟨"FGI", "Fear and Greed Index", 50, 0⟩]
        (.ok (.list [⟨"FGI", "Fear and Greed Index", 60, 0⟩]))).filter
      (fun c => c.symbol == "FGI")).length = 2 :=
  ⟨rfl, rfl⟩

/-- C5 amended: the merge step appends the previously persisted FGI entry
unconditionally, so when `fresh` already contains FGI entries the output
keeps them all and gains one more (the freshly-read one, appended last);
no deduplication happens and the output is never "exactly one FGI entry"
unless `fresh` had none. -/
theorem preserveFGI_appends_unconditionally :
    ∀ (fresh existing : List FilteredCrypto) (fgi : FilteredCrypto),
      existing.find? (fun c => c.symbol == "FGI") = some fgi →
      preserveFGI fresh (.ok (.list existing)) = fresh ++ [fgi] ∧
      ((preserveFGI fresh (.ok (.list existing))).filter
          (fun c => c.symbol == "FGI")).length
        = (fresh.filter (fun c => c.symbol == "FGI")).length + 1 := by
  intro fresh existing fgi hfind
  have hp : preserveFGI fresh (.ok (.list existing)) = fresh ++ [fgi] := by
    simp only [preserveFGI, hfind]
  refine ⟨hp, ?_⟩
  rw [hp, List.filter_append]
  have hfgi : (fgi.symbol == "FGI") = true := by simpa using List.find?_some hfind
  simp [List.filter_cons, hfgi]

/-- Witness for the amended C5 at the counterexample input. -/
theorem preserveFGI_appends_unconditionally_witness :
    preserveFGI [⟨"FGI", "Fear and Greed Index", 50, 0⟩]
        (.ok (.list [⟨"FGI", "Fear and Greed Index", 60, 0⟩]))
      = [⟨"FGI", "Fear and Greed Index", 50, 0⟩] ++ [⟨"FGI", "Fear and Greed Index", 60, 0⟩] :=
  (preserveFGI_appends_unconditionally [⟨"FGI", "Fear and Greed Index", 50, 0⟩]
    [⟨"FGI", "Fear and Greed Index", 60, 0⟩] ⟨"FGI", "Fear and Greed Index", 60, 0⟩ rfl).1

/-! ### C9: a missing name makes the filter throw, not pass -/

/-- C9 counterexample: an asset whose `name` field is missing does not "pass
the exclusion step"; `crypto.name.includes(...)` throws and `filterData`
propagates the error instead of returning a list. -/
theorem filterData_missing_name_counterexample :
    filterData (RawData.payload none (RawValue.seq [⟨"ABC", none, 1, some 5⟩])) = .error () ∧
    (⟨"ABC", none, 1, some 5⟩ : CryptoData).name = none :=
  ⟨rfl, rfl⟩

lemma filterMapCryptos_error_of_missing_name :
    ∀ cryptos : List CryptoData, (∃ a ∈ cryptos, a.name = none) →
      filterMapCryptos cryptos = .error () := by
  intro cryptos
  induction cryptos with
  | nil =>
    rintro ⟨a, ha, _⟩
    cases ha
  | cons b rest ih =>
    rintro ⟨a, ha, hname⟩
    unfold filterMapCryptos
    rcases List.mem_cons.mp ha with heq | hmem
    · subst heq
      rw [hname]
    · cases hb : b.name with
      | none => rfl
      | some n =>
        have hrest := ih ⟨a, hmem, hname⟩
        simp [hrest]

/-- C9 amended: for every capacity and every raw payload whose extracted
sequence contains an asset with a missing `name`, `filterData` throws (the
`name.includes` call raises a TypeError), i.e. the filter is total only on
inputs whose assets all carry a `name`; a missing name is NOT treated as
"matching no excluded substring". -/
theorem filterData_missing_name_throws :
    ∀ (cap : Nat) (raw : RawData) (cryptos : List CryptoData),
      extract raw = .ok (RawValue.seq cryptos) →
      (∃ a ∈ cryptos, a.name = none) →
      filterDataCap cap raw = .error () := by
  intro cap raw cryptos hext hmiss
  have hfm := filterMapCryptos_error_of_missing_name cryptos hmiss
  simp only [filterDataCap, hext, hfm]

/-- Witness for the amended C9 at a concrete nameless asset. -/
theorem filterData_missing_name_throws_witness :
    filterDataCap 16 (RawData.payload none (RawValue.seq [⟨"ABC", none, 1, some 5⟩])) = .error () :=
  filterData_missing_name_throws 16 (RawData.payload none (RawValue.seq [⟨"ABC", none, 1, some 5⟩]))
    [⟨"ABC", none, 1, some 5⟩] rfl
    ⟨⟨"ABC", none, 1, some 5⟩, List.mem_singleton.mpr rfl, rfl⟩

/-! ### Helper lemmas for the duplicate-symbol claim -/

lemma count_combineLists (filtered : List FilteredCrypto) (c : FilteredCrypto)
    (hc : isPriority c = false) :
    (combineLists filtered).count c = filtered.count c := by
  unfold combineLists
  rw [List.count_append]
  have h1 : (prioritySegment filtered).count c = 0 := by
    rw [List.count_eq_zero]
    intro hmem
    have hpt := (mem_f_of_mem_prioritySegment hmem).2
    rw [hc] at hpt
    cases hpt
  have h2 : (othersSorted filtered).count c
      = (filtered.filter (fun x => !(isPriority x))).count c :=
    (List.perm_insertionSort h24ge _).count_eq c
  have hpc : (fun x => !(isPriority x)) c = true := by simp [hc]
  have h3 : List.count c (List.filter (fun x => !(isPriority x)) filtered)
      = List.count c filtered := List.count_filter hpc
  rw [h1, h2, h3]
  omega

lemma find?_filter_priority (sym : String) (hsym : sym ∈ prioritySymbols)
    (filtered : List FilteredCrypto) :
    (filtered.filter isPriority).find? (fun c => c.symbol == sym)
      = filtered.find? (fun c => c.symbol == sym) := by
  induction filtered with
  | nil => rfl
  | cons c rest ih =>
    cases hp : isPriority c with
    | true =>
      rw [List.filter_cons, hp, if_pos rfl]
      cases hcs : c.symbol == sym with
      | true =>
        have e1 : List.find? (fun x => x.symbol == sym) (c :: List.filter isPriority rest)
            = some c := List.find?_cons_of_pos _ hcs
        have e2 : List.find? (fun x => x.symbol == sym) (c :: rest) = some c :=
          List.find?_cons_of_pos _ hcs
        rw [e1, e2]
      | false =>
        have e1 : List.find? (fun x => x.symbol == sym) (c :: List.filter isPriority rest)
            = List.find? (fun x => x.symbol == sym) (List.filter isPriority rest) :=
          List.find?_cons_of_neg _ (by simp [hcs])
        have e2 : List.find? (fun x => x.symbol == sym) (c :: rest)
            = List.find? (fun x => x.symbol == sym) rest :=
          List.find?_cons_of_neg _ (by simp [hcs])
        rw [e1, e2]
        exact ih
    | false =>
      have hcs : (c.symbol == sym) = false := by
        cases hcs : c.symbol == sym with
        | false => rfl
        | true =>
          have hpt : isPriority c = true := by
            unfold isPriority
            rw [eq_of_beq hcs]
            exact contains_of_mem_prioritySymbols hsym
          rw [hp] at hpt
          cases hpt
      have e2 : List.find? (fun x => x.symbol == sym) (c :: rest)
          = List.find? (fun x => x.symbol == sym) rest :=
        List.find?_cons_of_neg _ (by simp [hcs])
      rw [List.filter_cons, hp, if_neg Bool.false_ne_true, e2]
      exact ih

lemma filter_symbol_filterMapFind_nil (pc : List FilteredCrypto) (sym : String) :
    ∀ syms : List String, sym ∉ syms →
      ((syms.map (fun s => pc.find? (fun c => c.symbol == s))).filterMap id).filter
          (fun c => c.symbol == sym) = [] := by
  intro syms
  induction syms with
  | nil => intro _; rfl
  | cons s rest ih =>
    intro hnot
    have hne : sym ≠ s := fun h => hnot (by rw [h]; exact List.mem_cons_self s rest)
    have hrest : sym ∉ rest := fun h => hnot (List.mem_cons_of_mem s h)
    simp only [List.map_cons, List.filterMap_cons]
    cases hf : pc.find? (fun c => c.symbol == s) with
    | none => exact ih hrest
    | some e =>
      simp only [id_eq]
      rw [List.filter_cons]
      have hbe : (e.symbol == s) = true := by simpa using List.find?_some hf
      have hesym : (e.symbol == sym) = false := by
        rw [eq_of_beq hbe]
        exact beq_eq_false_iff_ne.mpr (Ne.symm hne)
      rw [hesym, if_neg Bool.false_ne_true]
      exact ih hrest

lemma filter_symbol_prioritySegmentList (pc : List FilteredCrypto) (sym : String)
    (c : FilteredCrypto) :
    ∀ syms : List String, syms.Nodup → sym ∈ syms →
      pc.find? (fun e => e.symbol == sym) = some c →
      ((syms.map (fun s => pc.find? (fun e => e.symbol == s))).filterMap id).filter
          (fun e => e.symbol == sym) = [c] := by
  intro syms
  induction syms with
  | nil =>
    intro _ h
    cases h
  | cons s rest ih =>
    intro hnodup hmem hfind
    simp only [List.map_cons, List.filterMap_cons]
    rcases List.mem_cons.mp hmem with heq | hmem2
    · subst heq
      rw [hfind]
      simp only [id_eq]
      rw [List.filter_cons]
      have hcs : (c.symbol == sym) = true := by simpa using List.find?_some hfind
      rw [hcs, if_pos rfl]
      rw [filter_symbol_filterMapFind_nil pc sym rest (List.nodup_cons.mp hnodup).1]
    · have hne : s ≠ sym := by
        intro h
        subst h
        exact (List.nodup_cons.mp hnodup).1 hmem2
      have hnodup2 := (List.nodup_cons.mp hnodup).2
      cases hf : pc.find? (fun e => e.symbol == s) with
      | none => exact ih hnodup2 hmem2 hfind
      | some e =>
        simp only [id_eq]
        rw [List.filter_cons]
        have hbe : (e.symbol == s) = true := by simpa using List.find?_some hf
        have hesym : (e.symbol == sym) = false := by
          rw [eq_of_beq hbe]
          exact beq_eq_false_iff_ne.mpr hne
        rw [hesym, if_neg Bool.false_ne_true]
        exact ih hnodup2 hmem2 hfind

lemma filter_symbol_othersSorted (filtered : List FilteredCrypto) (sym : String)
    (hsym : sym ∈ prioritySymbols) :
    (othersSorted filtered).filter (fun e => e.symbol == sym) = [] := by
  rw [List.filter_eq_nil_iff]
  intro e he hbe
  unfold othersSorted at he
  rw [List.mem_insertionSort] at he
  have hnp := (List.mem_filter.mp he).2
  have hpt : isPriority e = true := by
    unfold isPriority
    rw [eq_of_beq hbe]
    exact contains_of_mem_prioritySymbols hsym
  rw [hpt] at hnp
  simp at hnp

/-! ### C8: duplicate symbols — dropped for priority, kept for others -/

/-- C8 counterexample: two assets with the same priority symbol BTC both
survive name exclusion, yet only the first passes into the concatenated
output (and hence the cron filter output): the priority lookup picks the
first occurrence and the second occurrence is dropped, so duplicates of a
priority symbol ARE effectively deduplicated. -/
theorem filterData_duplicate_priority_counterexample :
    combineLists [⟨"BTC", "Bitcoin", 50000, 2⟩, ⟨"BTC", "Bitcoin II", 100, 1⟩]
        = [⟨"BTC", "Bitcoin", 50000, 2⟩] ∧
    filterData (RawData.payload none (RawValue.seq
        [⟨"BTC", some "Bitcoin", 50000, some 2⟩, ⟨"BTC", some "Bitcoin II", 100, some 1⟩]))
      = .ok [⟨"BTC", "Bitcoin", 50000, 2⟩] :=
  ⟨rfl, rfl⟩

/-- C8 amended: duplicate NON-priority symbols are not deduplicated — every
non-priority entry keeps its multiplicity in the concatenated output; the
priority lookup picks the first occurrence (`find?` over the priority
partition equals `find?` over the whole survivor list); and for a priority
symbol the concatenated output retains EXACTLY that first occurrence —
later duplicates of a priority symbol are dropped. -/
theorem combineLists_duplicate_symbols :
    ∀ filtered : List FilteredCrypto,
      (∀ c, isPriority c = false → (combineLists filtered).count c = filtered.count c) ∧
      (∀ sym ∈ prioritySymbols,
        (filtered.filter isPriority).find? (fun c => c.symbol == sym)
          = filtered.find? (fun c => c.symbol == sym)) ∧
      (∀ sym ∈ prioritySymbols, ∀ c,
        filtered.find? (fun e => e.symbol == sym) = some c →
        (combineLists filtered).filter (fun e => e.symbol == sym) = [c]) := by
  intro filtered
  refine ⟨fun c hc => count_combineLists filtered c hc,
          fun sym hsym => find?_filter_priority sym hsym filtered, ?_⟩
  intro sym hsym c hfind
  unfold combineLists
  rw [List.filter_append, filter_symbol_othersSorted filtered sym hsym]
  have hfind2 : (filtered.filter isPriority).find? (fun e => e.symbol == sym) = some c := by
    rw [find?_filter_priority sym hsym filtered]
    exact hfind
  unfold prioritySegment
  rw [filter_symbol_prioritySegmentList (filtered.filter isPriority) sym c prioritySymbols
      (by decide) hsym hfind2]
  rfl

/-- Witness for the amended C8: a survivor list with a duplicated
non-priority symbol XYZ (both kept) and a BTC entry. -/
theorem combineLists_duplicate_symbols_witness :
    (combineLists [⟨"BTC", "Bitcoin", 50000, 2⟩, ⟨"XYZ", "Xyz", 1, 5⟩,
        ⟨"XYZ", "Xyz Two", 2, 5⟩]).count ⟨"XYZ", "Xyz", 1, 5⟩
      = ([⟨"BTC", "Bitcoin", 50000, 2⟩, ⟨"XYZ", "Xyz", 1, 5⟩,
          (⟨"XYZ", "Xyz Two", 2, 5⟩ : FilteredCrypto)]).count ⟨"XYZ", "Xyz", 1, 5⟩ ∧
    (combineLists [⟨"BTC", "Bitcoin", 50000, 2⟩, ⟨"XYZ", "Xyz", 1, 5⟩,
        ⟨"XYZ", "Xyz Two", 2, 5⟩]).filter (fun e => e.symbol == "BTC")
      = [⟨"BTC", "Bitcoin", 50000, 2⟩] :=
  ⟨(combineLists_duplicate_symbols
      [⟨"BTC", "Bitcoin", 50000, 2⟩, ⟨"XYZ", "Xyz", 1, 5⟩, ⟨"XYZ", "Xyz Two", 2, 5⟩]).1
      ⟨"XYZ", "Xyz", 1, 5⟩ (by decide),
   (combineLists_duplicate_symbols
      [⟨"BTC", "Bitcoin", 50000, 2⟩, ⟨"XYZ", "Xyz", 1, 5⟩, ⟨"XYZ", "Xyz Two", 2, 5⟩]).2.2
      "BTC" (by decide) ⟨"BTC", "Bitcoin", 50000, 2⟩ rfl⟩

end CryptoPipeline
